import Mathlib

/-!
Shallow embedding of the proof-of-sql benchlib core
(crates/proof-of-sql-benchlib: bench_runner.rs, parquet_export.rs) and
proofs about its orchestration pipeline: curve-point conversion between
the arkworks and halo2 BN254 representations, commitment-setup loading,
the benchmark run loop, and parquet persistence.

Machine integers are modelled as Nat with explicit bounds where overflow
or fixed width matters.  Code of the repository that is not part of the
analysed sources (random generation, the planner, the proof scheme, the
deserializer) is modelled from the specification as explicit collaborator
functions supplied in an environment record, and the control flow of the
analysed sources is translated statement by statement.
-/

namespace Benchlib

/-! ## Byte-level encoding

bytemuck casts a limb array to bytes by reinterpretation; on the
little-endian targets this code runs on, a 4-limb 64-bit array becomes
the 32 little-endian bytes of the 256-bit integer formed by the limbs.
We model a limb array by that 256-bit integer and the cast by the
little-endian byte expansion. -/

def leBytes : Nat → Nat → List Nat
  | 0, _ => []
  | k + 1, n => n % 256 :: leBytes k (n / 256)

def natOfLEBytes : List Nat → Nat
  | [] => 0
  | b :: bs => b + 256 * natOfLEBytes bs

/-! ## The BN254 base field, as represented by both curve libraries

Both ark-bn254 and halo2curves-bn256 store a base-field element as four
64-bit limbs holding the Montgomery residue (value times R modulo p,
with R equal to 2 to the 256th modulo p).  The analysed conversion code
moves the raw limb bytes between the two libraries, so the model keeps
the limb integer explicit and recovers the represented value by the
Montgomery decoding. -/

def fieldP : Nat := 21888242871839275222246405745257275088696311157297823662689037894645226208583

def montR : Nat := 6350874878119819312338956282401532409788428879151445726012394534686998597021

def montRinv : Nat := 20988524275117001072002809824448087578619730785600314334253784976379291040311

/-- Model of an ark-bn254 Fq element: the stored 256-bit limb integer
(Montgomery form).  The field access written point.x.0 .0 in the source
yields exactly these limbs. -/
structure ArkFq where
  limbs : Nat
deriving DecidableEq

/-- The field value an ark Fq limb integer represents (Montgomery decode). -/
def arkFqValue (a : ArkFq) : Nat := a.limbs * montRinv % fieldP

/-- Montgomery encoding: the ark Fq element representing a given value. -/
def arkFqOfNat (v : Nat) : ArkFq := ⟨v * montR % fieldP⟩

/-- Model of a halo2curves bn256 Fq element: the stored 256-bit limb
integer, also in Montgomery form with the same constant R. -/
structure Halo2Fq where
  limbs : Nat
deriving DecidableEq

/-- The field value a halo2 Fq limb integer represents. -/
def halo2FqValue (a : Halo2Fq) : Nat := a.limbs * montRinv % fieldP

/-- Model of SerdeObject from_raw_bytes_unchecked for halo2 Fq: the bytes
are read directly as the internal limbs, with no check and no reduction. -/
def from_raw_bytes_unchecked (bytes : List Nat) : Halo2Fq := ⟨natOfLEBytes bytes⟩

/-- Model of ark-bn254 G1Affine: two coordinates plus an infinity flag. -/
structure Bn254G1Affine where
  x : ArkFq
  y : ArkFq
  infinity : Bool
deriving DecidableEq

/-- Model of halo2curves bn256 G1Affine: two coordinates; the identity
point is encoded as both coordinates zero. -/
structure Halo2Bn256G1Affine where
  x : Halo2Fq
  y : Halo2Fq
deriving DecidableEq

/-- Halo2 G1Affine default value: the identity point, encoded as (0, 0). -/
def halo2Default : Halo2Bn256G1Affine := ⟨⟨0⟩, ⟨0⟩⟩

/-- The bytes produced by the bytemuck cast of the x coordinate's limbs. -/
def xBytes (pt : Bn254G1Affine) : List Nat := leBytes 32 pt.x.limbs

/-- The bytes produced by the bytemuck cast of the y coordinate's limbs. -/
def yBytes (pt : Bn254G1Affine) : List Nat := leBytes 32 pt.y.limbs

/-- Embedding of convert_to_halo2_bn256_g1_affine from bench_runner.rs:
if the infinity flag is set, return the halo2 default; otherwise cast
each coordinate's raw limbs to bytes and feed them to the halo2 raw-byte
constructor. -/
def convert_to_halo2_bn256_g1_affine (pt : Bn254G1Affine) : Halo2Bn256G1Affine :=
  if pt.infinity then halo2Default
  else
    { x := from_raw_bytes_unchecked (xBytes pt)
      y := from_raw_bytes_unchecked (yBytes pt) }

/-- The canonical little-endian byte serialization of the value an ark
coordinate represents (what ark-serialize would emit after Montgomery
reduction) - used to state what the conversion does NOT feed to the
halo2 constructor. -/
def canonicalLEBytes (a : ArkFq) : List Nat := leBytes 32 (arkFqValue a)

/-! ## Table-size policy -/

/-- Rust usize div_ceil: quotient plus one when there is a remainder. -/
def div_ceil (a b : Nat) : Nat := a / b + if a % b = 0 then 0 else 1

/-- Embedding of table_size_for_query from bench_runner.rs. -/
def table_size_for_query (table_size : Nat) (query : String) : Nat :=
  if query = "Join" ∨ query = "Union All" then div_ceil table_size 2 else table_size

/-! ## Point semantics

The mathematical point a representation denotes: none for the point at
infinity (encoded by the flag on the ark side and by both coordinates
zero on the halo2 side), otherwise the pair of coordinate field values. -/

def arkG1Value (pt : Bn254G1Affine) : Option (Nat × Nat) :=
  if pt.infinity then none else some (arkFqValue pt.x, arkFqValue pt.y)

def halo2G1Value (pt : Halo2Bn256G1Affine) : Option (Nat × Nat) :=
  if pt.x.limbs = 0 ∧ pt.y.limbs = 0 then none
  else some (halo2FqValue pt.x, halo2FqValue pt.y)

/-- A deserialized (validated) ark point: either the point at infinity,
or finite with limbs that fit in 4 64-bit words and do not encode the
pair (0, 0) (which is not on the curve, hence excluded by validation). -/
def arkWellFormed (pt : Bn254G1Affine) : Prop :=
  pt.infinity = true ∨
    (pt.x.limbs < 2 ^ 256 ∧ pt.y.limbs < 2 ^ 256 ∧ ¬(pt.x.limbs = 0 ∧ pt.y.limbs = 0))

instance (pt : Bn254G1Affine) : Decidable (arkWellFormed pt) := by
  unfold arkWellFormed; infer_instance

/-- Modelled from the spec: nova_commitment_key_to_hyperkzg_public_setup
(code of this repository outside the analysed sources) derives the
prover-setup point sequence from the commitment key in the original
library's native representation - a per-point, value-preserving
conversion back from the halo2 representation, with the halo2 identity
encoding mapping to the ark infinity flag. -/
def convert_from_halo2_bn256_g1_affine (pt : Halo2Bn256G1Affine) : Bn254G1Affine :=
  if pt.x.limbs = 0 ∧ pt.y.limbs = 0 then ⟨⟨0⟩, ⟨0⟩, true⟩
  else ⟨⟨pt.x.limbs⟩, ⟨pt.y.limbs⟩, false⟩

/-! ## Commitment setup loading -/

/-- Embedding of the BenchRunError enum from bench_runner.rs (constructor
names carry an Err suffix where needed to keep identifiers plain). -/
inductive BenchRunError
  | IoErr (msg : String)
  | SqlParse (msg : String)
  | Planning (msg : String)
  | ProofErr (msg : String)
  | VerifyErr (msg : String)
  | SetupErr (msg : String)
  | Parquet (msg : String)
deriving DecidableEq

instance {ε α : Type} [DecidableEq ε] [DecidableEq α] : DecidableEq (Except ε α) := fun a b =>
  match a, b with
  | .error e₁, .error e₂ =>
    if h : e₁ = e₂ then .isTrue (by rw [h]) else .isFalse (by intro hc; injection hc; exact h (by assumption))
  | .error _, .ok _ => .isFalse (by intro hc; exact Except.noConfusion hc)
  | .ok _, .error _ => .isFalse (by intro hc; exact Except.noConfusion hc)
  | .ok a₁, .ok a₂ =>
    if h : a₁ = a₂ then .isTrue (by rw [h]) else .isFalse (by intro hc; injection hc; exact h (by assumption))

/-- Lookup in an association-list file store (path to file bytes). -/
def lookupBytes (fs : List (String × List Nat)) (path : String) : Option (List Nat) :=
  match fs.find? (fun e => e.1 = path) with
  | some e => some e.2
  | none => none

/-- Modelled from the spec: EvaluationEngine::setup (external) derives
the verifier key from the commitment key; we record the key's point
semantics, so that the verifier key determines exactly the sequence of
mathematical points committed to. -/
def vkOfCommitmentKey (ck : List Halo2Bn256G1Affine) : List (Option (Nat × Nat)) :=
  ck.map halo2G1Value

/-- Modelled from the spec: a prover-setup point sequence and a verifier
key are mutually consistent (any proof generated with the former
verifies against the latter) exactly when they describe the same
sequence of mathematical points. -/
def setupConsistent (prover : List Bn254G1Affine) (vk : List (Option (Nat × Nat))) : Prop :=
  prover.map arkG1Value = vk

instance (prover : List Bn254G1Affine) (vk : List (Option (Nat × Nat))) :
    Decidable (setupConsistent prover vk) := by
  unfold setupConsistent; infer_instance

/-- Collaborators of load_hyperkzg_setup that live outside the analysed
sources: the flat-compressed deserializer (modelled from the spec:
deserialize a flat sequence of curve points, failing on malformed data)
and the ephemeral commitment-key generator (external nova-snark
CommitmentEngine::setup, keyed by the table size). -/
structure SetupEnv where
  deser : List Nat → Except String (List Bn254G1Affine)
  ephemeralKey : Nat → List Halo2Bn256G1Affine

/-- Embedding of load_hyperkzg_setup from bench_runner.rs.  A supplied
path is opened (an Io error if the file store has no such file) and
deserialized (a Setup error on failure); the verifier key is derived
from the converted points while the unconverted points are returned as
the prover setup.  With no path supplied, an ephemeral key sized to
table_size is generated, the verifier key is derived from it, and the
prover setup is converted back from it. -/
def load_hyperkzg_setup (env : SetupEnv) (fs : List (String × List Nat)) (table_size : Nat)
    (ppot_path : Option String) :
    Except BenchRunError (List Bn254G1Affine × List (Option (Nat × Nat))) :=
  match ppot_path with
  | some path =>
    match lookupBytes fs path with
    | none => .error (.IoErr path)
    | some bytes =>
      match env.deser bytes with
      | .error msg => .error (.SetupErr msg)
      | .ok prover_setup =>
        let ck := prover_setup.map convert_to_halo2_bn256_g1_affine
        .ok (prover_setup, vkOfCommitmentKey ck)
  | none =>
    let ck := env.ephemeralKey table_size
    .ok (ck.map convert_from_halo2_bn256_g1_affine, vkOfCommitmentKey ck)

/-- The setup produced by the file path for deserialized points: the
unconverted points are the prover setup; the verifier key is derived
from the converted commitment key. -/
def fileLoadResult (pts : List Bn254G1Affine) :
    List Bn254G1Affine × List (Option (Nat × Nat)) :=
  (pts, vkOfCommitmentKey (pts.map convert_to_halo2_bn256_g1_affine))

/-- The setup produced by the ephemeral path: the prover setup is
converted back from the generated key; the verifier key is derived from
that key. -/
def ephemLoadResult (env : SetupEnv) (table_size : Nat) :
    List Bn254G1Affine × List (Option (Nat × Nat)) :=
  ((env.ephemeralKey table_size).map convert_from_halo2_bn256_g1_affine,
    vkOfCommitmentKey (env.ephemeralKey table_size))

/-- The caller-side existence filter from tests/basic_usage.rs: a
supplied path whose file does not exist is replaced by None before
load_hyperkzg_setup is called. -/
def filterExisting (fs : List (String × List Nat)) (opt : Option String) : Option String :=
  match opt with
  | some path => if (lookupBytes fs path).isSome then some path else none
  | none => none

/-! ## Parquet export

Column data is modelled as named integer columns; the parquet encoding
itself is an external collaborator.  The file system is an association
list from path strings to file states; a file created but not
completely written is distinguished from a completely written one. -/

def Columns : Type := List (String × List Int)

instance : DecidableEq Columns := by unfold Columns; infer_instance

/-- A file visible in the output directory: either created but not
completely written (File::create succeeded, a later write step failed)
or completely written with the encoded content. -/
inductive ParquetFile
  | stub
  | written (content : Columns)
deriving DecidableEq

def FS : Type := List (String × ParquetFile)

instance : DecidableEq FS := by unfold FS; infer_instance

def fsLookup (fs : FS) (path : String) : Option ParquetFile :=
  match fs.find? (fun e => e.1 = path) with
  | some e => some e.2
  | none => none

def fsSet (fs : FS) (path : String) (f : ParquetFile) : FS :=
  (path, f) :: fs

/-- The benchmark accessor's observable content: table reference to
column data (commitments play no role in the analysed claims).
Modelled from the spec: inserting an existing reference overwrites. -/
def Accessor : Type := List (String × Columns)

instance : DecidableEq Accessor := by unfold Accessor; infer_instance

def lookupAcc (acc : Accessor) (name : String) : Option Columns :=
  match acc.find? (fun e => e.1 = name) with
  | some e => some e.2
  | none => none

def insertTable (acc : Accessor) (name : String) (cols : Columns) : Accessor :=
  (name, cols) :: acc.filter (fun e => e.1 ≠ name)

/-- Embedding of sanitize_component from parquet_export.rs: keep ASCII
alphanumerics, underscore and hyphen; replace every other character
with an underscore; an empty result becomes the word table. -/
def sanitize_component (input : String) : String :=
  let out := String.mk (input.toList.map (fun ch =>
    if ch.isAlphanum ∨ ch = '_' ∨ ch = '-' then ch else '_'))
  if out.isEmpty then "table" else out

/-- Sanitization as the specification words it (for refinement
comparison only): non-alphanumeric characters replaced with an
underscore. -/
def sanitizeSpecWords (input : String) : String :=
  let out := String.mk (input.toList.map (fun ch => if ch.isAlphanum then ch else '_'))
  if out.isEmpty then "table" else out

/-- The display string of TableRef::from_names(None, name): the bare
table identifier (no namespace qualifier is attached in this code). -/
def tableRefStr (name : String) : String := name

/-- Embedding of table_ref_filename from parquet_export.rs. -/
def table_ref_filename (name : String) : String :=
  sanitize_component (tableRefStr name) ++ ".parquet"

/-- Embedding of the ParquetExportError enum, with the error payloads
reduced to the message strings the claims observe.  Arrow, Parquet,
OwnedTable and write-time Io failures are surfaced by the fallible
collaborator calls below. -/
inductive ParquetExportError
  | IoErr (msg : String)
  | Encode (msg : String)
  | WriteFail (msg : String)
  | MissingTable (table : String)
deriving DecidableEq

/-- A table definition: name plus opaque column specifications. -/
structure TableDefinition where
  name : String
  columns : List String
deriving DecidableEq

/-- External collaborators of the export path: building a record batch
from the columns (OwnedTable plus RecordBatch conversion, fallible) and
the arrow writer encoding the batch to file content (fallible). -/
structure ExportEnv where
  toBatch : Columns → Except String Columns
  writeBatch : Columns → Except String Columns

/-- One-table-at-a-time loop of export_tables_to_parquet.  For each
table: if a file already exists at the deterministic path, push the
path and continue; otherwise build the record batch (error if the
accessor has no such table, or on conversion failure), then create a
file at the final path (visible immediately as a stub) and run the
writer, which on success replaces the stub with the written content and
on failure leaves the stub behind while the error propagates. -/
def exportGo (env : ExportEnv) (acc : Accessor) (query_dir : String) :
    List TableDefinition → FS → List String → FS × Except ParquetExportError (List String)
  | [], fs, outputs => (fs, .ok outputs.reverse)
  | t :: ts, fs, outputs =>
    let path := query_dir ++ "/" ++ table_ref_filename t.name
    match fsLookup fs path with
    | some _ => exportGo env acc query_dir ts fs (path :: outputs)
    | none =>
      match lookupAcc acc t.name with
      | none => (fs, .error (.MissingTable (tableRefStr t.name)))
      | some cols =>
        match env.toBatch cols with
        | .error m => (fs, .error (.Encode m))
        | .ok batch =>
          let fs1 := fsSet fs path .stub
          match env.writeBatch batch with
          | .error m => (fs1, .error (.WriteFail m))
          | .ok content => exportGo env acc query_dir ts (fsSet fs1 path (.written content)) (path :: outputs)

/-- Embedding of export_tables_to_parquet from parquet_export.rs: the
query directory is the output directory joined with the sanitized query
name (directory creation is not observable in this model). -/
def export_tables_to_parquet (env : ExportEnv) (acc : Accessor) (tables : List TableDefinition)
    (output_dir query_name : String) (fs : FS) :
    FS × Except ParquetExportError (List String) :=
  exportGo env acc (output_dir ++ "/" ++ sanitize_component query_name) tables fs []

/-- The debug formatting of a parquet export error, as produced by the
format macro in run_hyperkzg_bench when wrapping it into the Parquet
variant of BenchRunError. -/
def parquetErrStr : ParquetExportError → String
  | .IoErr m => "Io(" ++ m ++ ")"
  | .Encode m => "Encode(" ++ m ++ ")"
  | .WriteFail m => "WriteFail(" ++ m ++ ")"
  | .MissingTable t => "MissingTable(" ++ t ++ ")"

/-! ## The benchmark run loop -/

/-- A query entry as destructured in run_hyperkzg_bench: name, SQL text,
table definitions and an opaque parameter bag. -/
structure QueryEntry where
  name : String
  sql : String
  tables : List TableDefinition
  params : Nat
deriving DecidableEq

/-- Embedding of BenchOptions from bench_runner.rs. -/
structure BenchOptions where
  iterations : Nat
  table_size : Nat
  rand_seed : Option Nat
  parquet_dir : Option String
deriving DecidableEq

/-- Embedding of BenchResult from bench_runner.rs. -/
structure BenchResult where
  commitment_scheme : String
  query : String
  table_size : Nat
  iteration : Nat
  generate_proof_ms : Nat
  verify_proof_ms : Nat
  num_query_results : Nat
deriving DecidableEq

/-- StdRng seeding from a 64-bit seed is a deterministic function of the
seed; the state of the generator is abstracted to a natural number. -/
def seedFromU64 (s : Nat) : Nat := s

/-- Embedding of the rng helper from bench_runner.rs: a supplied seed is
used deterministically, otherwise the entropy source provides the
initial state. -/
def rngInit (opts : BenchOptions) (entropy : Nat) : Nat :=
  match opts.rand_seed with
  | some s => seedFromU64 s
  | none => entropy

/-- External or out-of-analysed-source collaborators of the run loop.
gen is modelled from the spec: generate_random_columns is a
deterministic function of the random-source state, the column
specifications and the row count, returning columns and the advanced
state.  parse is the external SQL parser (statements opaque), plan the
external planner, prove the proof generation returning the result row
count, verify the proof verification. -/
structure RunEnv extends SetupEnv, ExportEnv where
  gen : Nat → List String → Nat → Columns × Nat
  parse : String → Except String (List Nat)
  plan : List Nat → Accessor → Except String (List Nat)
  prove : Nat → Accessor → List Bn254G1Affine → Nat → Except String Nat
  verify : Nat → Nat → Accessor → List (Option (Nat × Nat)) → Nat → Except String Unit

/-- The orchestrator-owned mutable state of one run: the accessor, the
parquet file system, the random-source state, the clock-reading index,
and the accumulated results and paths. -/
structure RunState where
  acc : Accessor
  fs : FS
  rngSt : Nat
  clockIdx : Nat
  results : List BenchResult
  parquet_paths : List String
deriving DecidableEq

/-- The per-iteration loop of run_hyperkzg_bench for one plan: time
proof generation (clock readings are consumed only when the timed call
succeeds, matching the source where a failing call returns before
elapsed is taken), record the row count, time verification, and append
one BenchResult. -/
def runIters (env : RunEnv) (clock : Nat → Nat) (opts : BenchOptions) (queryName : String)
    (params : Nat) (prover : List Bn254G1Affine) (vk : List (Option (Nat × Nat))) (plan : Nat) :
    Nat → Nat → RunState → Except BenchRunError RunState
  | _, 0, st => .ok st
  | i, fuel + 1, st =>
    match env.prove plan st.acc prover params with
    | .error m => .error (.ProofErr m)
    | .ok numRows =>
      let generate_ms := clock st.clockIdx
      match env.verify numRows plan st.acc vk params with
      | .error m => .error (.VerifyErr m)
      | .ok _ =>
        let verify_ms := clock (st.clockIdx + 1)
        runIters env clock opts queryName params prover vk plan (i + 1) fuel
          { st with
            clockIdx := st.clockIdx + 2
            results := st.results ++
              [{ commitment_scheme := "HyperKZG"
                 query := queryName
                 table_size := opts.table_size
                 iteration := i
                 generate_proof_ms := generate_ms
                 verify_proof_ms := verify_ms
                 num_query_results := numRows }] }

/-- The per-plan loop of run_hyperkzg_bench. -/
def runPlans (env : RunEnv) (clock : Nat → Nat) (opts : BenchOptions) (queryName : String)
    (params : Nat) (prover : List Bn254G1Affine) (vk : List (Option (Nat × Nat))) :
    List Nat → RunState → Except BenchRunError RunState
  | [], st => .ok st
  | pl :: pls, st =>
    match runIters env clock opts queryName params prover vk pl 0 opts.iterations st with
    | .error e => .error e
    | .ok st' => runPlans env clock opts queryName params prover vk pls st'

/-- The build-tables loop: generate random columns for each table
definition at the adjusted row count and insert them into the accessor. -/
def buildTables (env : RunEnv) (rows : Nat) :
    List TableDefinition → Accessor → Nat → Accessor × Nat
  | [], acc, rngSt => (acc, rngSt)
  | t :: ts, acc, rngSt =>
    let genOut := env.gen rngSt t.columns rows
    buildTables env rows ts (insertTable acc t.name genOut.1) genOut.2

/-- The build-tables phase of one query entry: generate and insert all
tables of the entry at the adjusted row count. -/
def stAfterBuild (env : RunEnv) (opts : BenchOptions) (q : QueryEntry) (st : RunState) :
    RunState :=
  { st with
    acc := (buildTables env (table_size_for_query opts.table_size q.name) q.tables
      st.acc st.rngSt).1
    rngSt := (buildTables env (table_size_for_query opts.table_size q.name) q.tables
      st.acc st.rngSt).2 }

/-- The optional persistence phase of one query entry. -/
def runExportPhase (env : RunEnv) (opts : BenchOptions) (q : QueryEntry) (st1 : RunState) :
    Except BenchRunError RunState :=
  match opts.parquet_dir with
  | none => .ok st1
  | some dir =>
    match export_tables_to_parquet env.toExportEnv st1.acc q.tables dir q.name st1.fs with
    | (_, .error e) => .error (.Parquet (parquetErrStr e))
    | (fs', .ok outputs) => .ok { st1 with fs := fs', parquet_paths := st1.parquet_paths ++ outputs }

/-- Processing of one query entry: build tables (with the join-size
adjustment), optionally export to parquet, parse, plan, and run the
timed loop for every plan. -/
def runQuery (env : RunEnv) (clock : Nat → Nat) (opts : BenchOptions)
    (prover : List Bn254G1Affine) (vk : List (Option (Nat × Nat))) (q : QueryEntry)
    (st : RunState) : Except BenchRunError RunState :=
  match runExportPhase env opts q (stAfterBuild env opts q st) with
  | .error e => .error e
  | .ok st2 =>
    match env.parse q.sql with
    | .error m => .error (.SqlParse m)
    | .ok statements =>
      match env.plan statements st2.acc with
      | .error m => .error (.Planning m)
      | .ok plans => runPlans env clock opts q.name q.params prover vk plans st2

/-- The per-query loop of run_hyperkzg_bench: the first error aborts. -/
def runQueries (env : RunEnv) (clock : Nat → Nat) (opts : BenchOptions)
    (prover : List Bn254G1Affine) (vk : List (Option (Nat × Nat))) :
    List QueryEntry → RunState → Except BenchRunError RunState
  | [], st => .ok st
  | q :: qs, st =>
    match runQuery env clock opts prover vk q st with
    | .error e => .error e
    | .ok st' => runQueries env clock opts prover vk qs st'

/-- The initial run state. -/
def initState (opts : BenchOptions) (entropy : Nat) : RunState :=
  { acc := [], fs := [], rngSt := rngInit opts entropy, clockIdx := 0
    results := [], parquet_paths := [] }

/-- Embedding of run_hyperkzg_bench: load the setup, then process every
query entry in order over the shared accessor; the final state carries
the results, the persisted paths, the accessor and the file system. -/
def run_hyperkzg_bench (env : RunEnv) (clock : Nat → Nat) (entropy : Nat)
    (queries : List QueryEntry) (opts : BenchOptions) (ppotFs : List (String × List Nat))
    (ppot : Option String) : Except BenchRunError RunState :=
  match load_hyperkzg_setup env.toSetupEnv ppotFs opts.table_size ppot with
  | .error e => .error e
  | .ok setup => runQueries env clock opts setup.1 setup.2 queries (initState opts entropy)

/-! ## Timing erasure, for the determinism statement -/

/-- A bench result with its timing fields erased: everything the claim
requires to be reproducible across runs with the same seed. -/
def stripResult (r : BenchResult) : BenchResult :=
  { r with generate_proof_ms := 0, verify_proof_ms := 0 }

/-- A run state with the timing fields of its results erased. -/
def stripState (st : RunState) : RunState :=
  { st with results := st.results.map stripResult }

/-- A run outcome with the timing fields of its results erased. -/
def stripOut : Except BenchRunError RunState → Except BenchRunError RunState
  | .error e => .error e
  | .ok st => .ok (stripState st)

/-! ## Concrete collaborator instances used to evaluate the theorems -/

def setupEnvTriv : SetupEnv := ⟨fun _ => .ok [], fun _ => []⟩

/-- A finite, well-formed sample point (coordinate values 1 and 2). -/
def ptOne : Bn254G1Affine := ⟨arkFqOfNat 1, arkFqOfNat 2, false⟩

def setupEnvOnePoint : SetupEnv := ⟨fun _ => .ok [ptOne], fun _ => []⟩

def exportEnvId : ExportEnv := ⟨fun c => .ok c, fun c => .ok c⟩

def exportEnvFailWrite : ExportEnv := ⟨fun c => .ok c, fun _ => .error "io"⟩

def runEnvOk : RunEnv :=
  { deser := fun _ => .ok []
    ephemeralKey := fun _ => []
    toBatch := fun c => .ok c
    writeBatch := fun c => .ok c
    gen := fun r _ _ => ([("a", [1])], r + 1)
    parse := fun _ => .ok [0]
    plan := fun _ _ => .ok [0]
    prove := fun _ _ _ _ => .ok 2
    verify := fun _ _ _ _ _ => .ok () }

def runEnvParseFail : RunEnv := { runEnvOk with parse := fun _ => .error "bad sql" }

def clockId : Nat → Nat := fun n => n

def qTriv : QueryEntry := ⟨"Join", "select", [⟨"t", []⟩], 0⟩

def optsTriv : BenchOptions := ⟨1, 7, some 5, none⟩

/-! # Theorems -/

/-! ## Helper lemmas -/

theorem montR_def : montR = 2 ^ 256 % fieldP := by decide

theorem montR_mul_montRinv : montR * montRinv % fieldP = 1 := by decide

theorem natOfLEBytes_leBytes (k : Nat) : ∀ n : Nat, natOfLEBytes (leBytes k n) = n % 2 ^ (8 * k) := by
  induction k with
  | zero => intro n; simp [leBytes, natOfLEBytes, Nat.mod_one]
  | succ k ih =>
    intro n
    have hpow : (2 : Nat) ^ (8 * (k + 1)) = 256 * 2 ^ (8 * k) := by
      rw [Nat.mul_succ, Nat.pow_add]; ring
    rw [leBytes, natOfLEBytes, ih, hpow]
    have h1 : n % (256 * 2 ^ (8 * k)) / 256 = n / 256 % 2 ^ (8 * k) :=
      Nat.mod_mul_right_div_self n 256 (2 ^ (8 * k))
    have h2 : n % (256 * 2 ^ (8 * k)) % 256 = n % 256 :=
      Nat.mod_mod_of_dvd n ⟨2 ^ (8 * k), rfl⟩
    have h3 := Nat.div_add_mod (n % (256 * 2 ^ (8 * k))) 256
    omega

theorem natOfLEBytes_leBytes32 (n : Nat) (h : n < 2 ^ 256) : natOfLEBytes (leBytes 32 n) = n := by
  have h8 : (8 : Nat) * 32 = 256 := by norm_num
  rw [natOfLEBytes_leBytes, h8]
  exact Nat.mod_eq_of_lt h

/-! ## C2: join-size halving -/

/-- C2: the row count handed to random column generation is the ceiling
of table_size over 2 exactly for the query names Join and Union All, and
table_size itself for every other name; at table_size 1001 this yields
501 and 1001 respectively. -/
theorem claim_C2_table_size_rule (ts : Nat) (q : String) :
    table_size_for_query ts q =
      (if q = "Join" ∨ q = "Union All" then (ts + 1) / 2 else ts) ∧
    table_size_for_query 1001 "Join" = 501 ∧
    table_size_for_query 1001 "Union All" = 501 ∧
    table_size_for_query 1001 "Filter" = 1001 := by
  refine ⟨?_, by decide, by decide, by decide⟩
  by_cases hc : q = "Join" ∨ q = "Union All"
  · simp only [table_size_for_query, div_ceil, if_pos hc]
    by_cases h2 : ts % 2 = 0 <;> simp only [h2, if_pos, if_neg, if_true, if_false] <;> omega
  · simp only [table_size_for_query, if_neg hc]

/-! ## C3: infinity maps to the halo2 default -/

/-- C3: every input point whose infinity flag is set converts to the
halo2 default (identity) affine value, and the conversion of such points
does not depend on their coordinates. -/
theorem claim_C3_infinity_to_default (pt : Bn254G1Affine) (h : pt.infinity = true) :
    convert_to_halo2_bn256_g1_affine pt = halo2Default ∧
    (∀ q : Bn254G1Affine, q.infinity = true →
      convert_to_halo2_bn256_g1_affine q = convert_to_halo2_bn256_g1_affine pt) := by
  constructor
  · simp [convert_to_halo2_bn256_g1_affine, h]
  · intro q hq
    simp [convert_to_halo2_bn256_g1_affine, h, hq]

theorem claim_C3_witness :
    (Bn254G1Affine.mk ⟨5⟩ ⟨6⟩ true).infinity = true ∧
    convert_to_halo2_bn256_g1_affine (Bn254G1Affine.mk ⟨5⟩ ⟨6⟩ true) = halo2Default :=
  ⟨rfl, (claim_C3_infinity_to_default (Bn254G1Affine.mk ⟨5⟩ ⟨6⟩ true) rfl).1⟩

/-! ## C4: what bytes the conversion feeds to the halo2 constructor -/

/-- C4 counterexample: for the finite point whose x coordinate
represents the field value 1, the 32 bytes fed to the halo2 raw-byte
constructor (the cast of the raw limbs, which hold the Montgomery
residue) differ from the canonical little-endian byte serialization of
the coordinate value. -/
theorem claim_C4_counterexample :
    (Bn254G1Affine.mk (arkFqOfNat 1) (arkFqOfNat 2) false).infinity = false ∧
    xBytes (Bn254G1Affine.mk (arkFqOfNat 1) (arkFqOfNat 2) false) ≠
      canonicalLEBytes (arkFqOfNat 1) := by
  exact ⟨rfl, by decide⟩

/-- C4 (amended): for every finite input point whose coordinate limbs
fit in 256 bits, the conversion feeds each coordinate's raw internal
little-endian limb bytes (the Montgomery-form residue) to the halo2
raw-byte constructor unchanged - no modular reduction and no Montgomery
decode - and the represented field value is preserved because both
libraries use the same Montgomery representation. -/
theorem claim_C4_raw_limb_passthrough (pt : Bn254G1Affine) (hfin : pt.infinity = false)
    (hx : pt.x.limbs < 2 ^ 256) (hy : pt.y.limbs < 2 ^ 256) :
    (convert_to_halo2_bn256_g1_affine pt).x.limbs = pt.x.limbs ∧
    (convert_to_halo2_bn256_g1_affine pt).y.limbs = pt.y.limbs ∧
    halo2FqValue (convert_to_halo2_bn256_g1_affine pt).x = arkFqValue pt.x ∧
    halo2FqValue (convert_to_halo2_bn256_g1_affine pt).y = arkFqValue pt.y := by
  have hxr : natOfLEBytes (leBytes 32 pt.x.limbs) = pt.x.limbs := natOfLEBytes_leBytes32 _ hx
  have hyr : natOfLEBytes (leBytes 32 pt.y.limbs) = pt.y.limbs := natOfLEBytes_leBytes32 _ hy
  simp [convert_to_halo2_bn256_g1_affine, hfin, from_raw_bytes_unchecked, xBytes, yBytes,
    hxr, hyr, halo2FqValue, arkFqValue]

theorem claim_C4_witness :
    ((Bn254G1Affine.mk ⟨3⟩ ⟨4⟩ false).infinity = false) ∧
    (convert_to_halo2_bn256_g1_affine (Bn254G1Affine.mk ⟨3⟩ ⟨4⟩ false)).x.limbs =
      (Bn254G1Affine.mk ⟨3⟩ ⟨4⟩ false).x.limbs :=
  ⟨rfl, (claim_C4_raw_limb_passthrough (Bn254G1Affine.mk ⟨3⟩ ⟨4⟩ false) rfl
    (by decide) (by decide)).1⟩

/-! ## C5: which loader path is taken -/

/-- C5 counterexample: with a supplied path whose file does not exist,
load_hyperkzg_setup does not take the ephemeral generation path (as the
claim states); it takes the file path and fails with an Io error. -/
theorem claim_C5_counterexample :
    load_hyperkzg_setup setupEnvTriv [] 4 (some "missing") = .error (.IoErr "missing") ∧
    load_hyperkzg_setup setupEnvTriv [] 4 (some "missing") ≠
      load_hyperkzg_setup setupEnvTriv [] 4 none := by
  constructor
  · rfl
  · intro h
    rw [show load_hyperkzg_setup setupEnvTriv [] 4 none = .ok ([], []) from rfl] at h
    rw [show load_hyperkzg_setup setupEnvTriv [] 4 (some "missing") =
      .error (.IoErr "missing") from rfl] at h
    exact Except.noConfusion h

/-- C5 (amended): load_hyperkzg_setup selects its path by whether a
trusted-setup path is supplied: no path takes the ephemeral path; a
supplied path always takes the file-deserialization path, failing with
an Io error when the file does not exist; and at the test surface,
where the caller filters non-existing paths to None before calling, the
selection is by supplied-and-exists exactly as the claim states. -/
theorem claim_C5_path_selection (env : SetupEnv) (fs : List (String × List Nat)) (ts : Nat) :
    (load_hyperkzg_setup env fs ts none = .ok (ephemLoadResult env ts)) ∧
    (∀ path bytes, lookupBytes fs path = some bytes →
      load_hyperkzg_setup env fs ts (some path) =
        (match env.deser bytes with
         | .error msg => .error (.SetupErr msg)
         | .ok pts => .ok (fileLoadResult pts))) ∧
    (∀ path, lookupBytes fs path = none →
      load_hyperkzg_setup env fs ts (some path) = .error (.IoErr path)) ∧
    (∀ opt, load_hyperkzg_setup env fs ts (filterExisting fs opt) =
      (match opt with
       | some path =>
         (match lookupBytes fs path with
          | some bytes =>
            (match env.deser bytes with
             | .error msg => .error (.SetupErr msg)
             | .ok pts => .ok (fileLoadResult pts))
          | none => .ok (ephemLoadResult env ts))
       | none => .ok (ephemLoadResult env ts))) := by
  refine ⟨rfl, ?_, ?_, ?_⟩
  · intro path bytes h
    simp only [load_hyperkzg_setup, h]
    cases hd : env.deser bytes <;> simp [hd, fileLoadResult, vkOfCommitmentKey]
  · intro path h
    simp only [load_hyperkzg_setup, h]
  · intro opt
    cases opt with
    | none => rfl
    | some path =>
      cases hl : lookupBytes fs path with
      | none => simp only [filterExisting, hl, Option.isSome_none, Bool.false_eq_true,
          if_false, load_hyperkzg_setup]; rfl
      | some bytes =>
        simp only [filterExisting, hl, Option.isSome_some, if_true, load_hyperkzg_setup, hl]
        cases hd : env.deser bytes <;> simp [hd, fileLoadResult, vkOfCommitmentKey]

theorem claim_C5_witness :
    lookupBytes ([] : List (String × List Nat)) "x" = none ∧
    load_hyperkzg_setup setupEnvTriv [] 3 (some "x") = .error (.IoErr "x") :=
  ⟨rfl, (claim_C5_path_selection setupEnvTriv [] 3).2.2.1 "x" rfl⟩

/-! ## C1: setup pairing invariant -/

/-- Converting a well-formed ark point to the halo2 representation
preserves the mathematical point it denotes. -/
theorem halo2Value_convert (pt : Bn254G1Affine) (h : arkWellFormed pt) :
    halo2G1Value (convert_to_halo2_bn256_g1_affine pt) = arkG1Value pt := by
  by_cases hinf : pt.infinity
  · simp [convert_to_halo2_bn256_g1_affine, hinf, halo2Default, halo2G1Value, arkG1Value]
  · rcases h with h | ⟨hx, hy, hnz⟩
    · exact absurd h hinf
    · have hxr : natOfLEBytes (leBytes 32 pt.x.limbs) = pt.x.limbs := natOfLEBytes_leBytes32 _ hx
      have hyr : natOfLEBytes (leBytes 32 pt.y.limbs) = pt.y.limbs := natOfLEBytes_leBytes32 _ hy
      simp [convert_to_halo2_bn256_g1_affine, hinf, from_raw_bytes_unchecked, xBytes, yBytes,
        halo2G1Value, arkG1Value, hxr, hyr, hnz, halo2FqValue, arkFqValue]

/-- Converting a halo2 point back to the ark representation preserves
the mathematical point it denotes, unconditionally. -/
theorem arkValue_convert_back (pt : Halo2Bn256G1Affine) :
    arkG1Value (convert_from_halo2_bn256_g1_affine pt) = halo2G1Value pt := by
  by_cases h : pt.x.limbs = 0 ∧ pt.y.limbs = 0 <;>
    simp [convert_from_halo2_bn256_g1_affine, halo2G1Value, arkG1Value, h,
      arkFqValue, halo2FqValue]

/-- C1: for every commitment setup produced by either path of
load_hyperkzg_setup - assuming the deserializer returns only validated,
well-formed points - the returned prover-setup point sequence and the
returned verifier key describe the same sequence of mathematical
points, which in the spec-modelled proof system means every proof
generated with the prover setup verifies against the verifier key. -/
theorem claim_C1_setup_pairing (env : SetupEnv) (fs : List (String × List Nat)) (ts : Nat)
    (ppot : Option String) (prover : List Bn254G1Affine) (vk : List (Option (Nat × Nat)))
    (hdeser : ∀ bytes pts, env.deser bytes = .ok pts → ∀ pt ∈ pts, arkWellFormed pt)
    (hload : load_hyperkzg_setup env fs ts ppot = .ok (prover, vk)) :
    setupConsistent prover vk := by
  cases ppot with
  | none =>
    simp only [load_hyperkzg_setup, Except.ok.injEq, Prod.mk.injEq] at hload
    obtain ⟨hp, hv⟩ := hload
    subst hp; subst hv
    unfold setupConsistent vkOfCommitmentKey
    rw [List.map_map]
    exact List.map_congr_left fun pt _ => arkValue_convert_back pt
  | some path =>
    cases hl : lookupBytes fs path with
    | none => simp [load_hyperkzg_setup, hl] at hload
    | some bytes =>
      cases hd : env.deser bytes with
      | error m => simp [load_hyperkzg_setup, hl, hd] at hload
      | ok pts =>
        simp only [load_hyperkzg_setup, hl, hd, Except.ok.injEq, Prod.mk.injEq] at hload
        obtain ⟨hp, hv⟩ := hload
        subst hp; subst hv
        unfold setupConsistent vkOfCommitmentKey
        rw [List.map_map]
        exact List.map_congr_left fun pt hpt =>
          (halo2Value_convert pt (hdeser bytes _ hd pt hpt)).symm

theorem claim_C1_witness :
    load_hyperkzg_setup setupEnvOnePoint [("f", [0])] 3 (some "f") =
      .ok (fileLoadResult [ptOne]) ∧
    setupConsistent (fileLoadResult [ptOne]).1 (fileLoadResult [ptOne]).2 :=
  ⟨rfl,
    claim_C1_setup_pairing setupEnvOnePoint [("f", [0])] 3 (some "f")
      (fileLoadResult [ptOne]).1 (fileLoadResult [ptOne]).2
      (by
        intro bytes pts h pt hpt
        injection h with h'
        subst h'
        rcases List.mem_singleton.mp hpt with rfl
        decide)
      rfl⟩

/-! ## C8, C9: parquet persistence -/

theorem fsLookup_fsSet_self (fs : FS) (path : String) (f : ParquetFile) :
    fsLookup (fsSet fs path f) path = some f := by
  simp [fsLookup, fsSet, List.find?]

theorem fsLookup_fsSet_ne (fs : FS) (path p : String) (f : ParquetFile) (h : p ≠ path) :
    fsLookup (fsSet fs path f) p = fsLookup fs p := by
  have hhd : ¬(path = p) := fun hc => h hc.symm
  simp [fsSet, fsLookup, List.find?, hhd]

/-- The export loop never removes or overwrites an existing file: every
file present before the call is present, unchanged, afterwards. -/
theorem exportGo_preserves (env : ExportEnv) (acc : Accessor) (qd : String) :
    ∀ (ts : List TableDefinition) (fs : FS) (outs : List String) (p : String) (f : ParquetFile),
      fsLookup fs p = some f → fsLookup (exportGo env acc qd ts fs outs).1 p = some f := by
  intro ts
  induction ts with
  | nil => intro fs outs p f h; exact h
  | cons t ts ih =>
    intro fs outs p f h
    cases hfl : fsLookup fs (qd ++ "/" ++ table_ref_filename t.name) with
    | some g =>
      simp only [exportGo, hfl]
      exact ih fs _ p f h
    | none =>
      cases hacc : lookupAcc acc t.name with
      | none => simp only [exportGo, hfl, hacc]; exact h
      | some cols =>
        cases hb : env.toBatch cols with
        | error m => simp only [exportGo, hfl, hacc, hb]; exact h
        | ok batch =>
          have hne : p ≠ qd ++ "/" ++ table_ref_filename t.name := by
            intro hc; rw [hc] at h; rw [h] at hfl; exact Option.noConfusion hfl
          cases hw : env.writeBatch batch with
          | error m =>
            simp only [exportGo, hfl, hacc, hb, hw]
            exact (fsLookup_fsSet_ne fs _ p ParquetFile.stub hne).trans h
          | ok content =>
            simp only [exportGo, hfl, hacc, hb, hw]
            apply ih
            rw [fsLookup_fsSet_ne _ _ _ _ hne, fsLookup_fsSet_ne _ _ _ _ hne]
            exact h

/-- Running the export loop a second time from the file system produced
by a successful first run returns the same paths and leaves the file
system unchanged. -/
theorem exportGo_idem (env : ExportEnv) (acc : Accessor) (qd : String) :
    ∀ (ts : List TableDefinition) (fs : FS) (outs : List String) (fs' : FS) (res : List String),
      exportGo env acc qd ts fs outs = (fs', .ok res) →
      exportGo env acc qd ts fs' outs = (fs', .ok res) := by
  intro ts
  induction ts with
  | nil =>
    intro fs outs fs' res h
    simp only [exportGo] at h ⊢
    obtain ⟨h1, h2⟩ := Prod.mk.injEq .. ▸ h
    exact Prod.ext (h1 ▸ rfl) h2
  | cons t ts ih =>
    intro fs outs fs' res h
    cases hfl : fsLookup fs (qd ++ "/" ++ table_ref_filename t.name) with
    | some g =>
      simp only [exportGo, hfl] at h
      have hfl' : fsLookup fs' (qd ++ "/" ++ table_ref_filename t.name) = some g := by
        have hpres := exportGo_preserves env acc qd ts fs
          ((qd ++ "/" ++ table_ref_filename t.name) :: outs) _ _ hfl
        rw [h] at hpres
        exact hpres
      simp only [exportGo, hfl']
      exact ih fs _ fs' res h
    | none =>
      cases hacc : lookupAcc acc t.name with
      | none =>
        simp only [exportGo, hfl, hacc] at h
        exact absurd (congrArg Prod.snd h) (by simp)
      | some cols =>
        cases hb : env.toBatch cols with
        | error m =>
          simp only [exportGo, hfl, hacc, hb] at h
          exact absurd (congrArg Prod.snd h) (by simp)
        | ok batch =>
          cases hw : env.writeBatch batch with
          | error m =>
            simp only [exportGo, hfl, hacc, hb, hw] at h
            exact absurd (congrArg Prod.snd h) (by simp)
          | ok content =>
            simp only [exportGo, hfl, hacc, hb, hw] at h
            have hset : fsLookup
                (fsSet (fsSet fs (qd ++ "/" ++ table_ref_filename t.name) ParquetFile.stub)
                  (qd ++ "/" ++ table_ref_filename t.name) (ParquetFile.written content))
                (qd ++ "/" ++ table_ref_filename t.name) = some (ParquetFile.written content) :=
              fsLookup_fsSet_self _ _ _
            have hfl' : fsLookup fs' (qd ++ "/" ++ table_ref_filename t.name) =
                some (ParquetFile.written content) := by
              have hpres := exportGo_preserves env acc qd ts _
                ((qd ++ "/" ++ table_ref_filename t.name) :: outs) _ _ hset
              rw [h] at hpres
              exact hpres
            simp only [exportGo, hfl']
            exact ih _ _ fs' res h
/-- C8 counterexample: the sanitizer keeps hyphens, so the output path
is not obtained by replacing every non-alphanumeric character with an
underscore as the claim states: on the component a-b the source
sanitizer and the claim's rule disagree. -/
theorem claim_C8_counterexample :
    sanitize_component "a-b" = "a-b" ∧ sanitizeSpecWords "a-b" = "a_b" ∧
    sanitize_component "a-b" ≠ sanitizeSpecWords "a-b" := by
  refine ⟨by decide, by decide, by decide⟩

/-- C8 (amended): persistence is idempotent at a deterministic path
derived from the query name and table reference by replacing every
character other than ASCII alphanumerics, underscore and hyphen with an
underscore (every character of a sanitized component is of that shape):
a second export from the file system produced by a successful first
export returns the same paths and leaves the file system unchanged,
re-encoding nothing. -/
theorem claim_C8_idempotent_export (env : ExportEnv) (acc : Accessor)
    (tables : List TableDefinition) (dir q : String) (fs fs' : FS) (outs : List String)
    (h : export_tables_to_parquet env acc tables dir q fs = (fs', .ok outs)) :
    export_tables_to_parquet env acc tables dir q fs' = (fs', .ok outs) ∧
    (∀ s : String, ∀ c ∈ (sanitize_component s).toList,
      c.isAlphanum = true ∨ c = '_' ∨ c = '-') := by
  constructor
  · exact exportGo_idem env acc (dir ++ "/" ++ sanitize_component q) tables fs [] fs' outs h
  · intro s c hc
    unfold sanitize_component at hc
    by_cases hemp : (String.mk (s.toList.map (fun ch =>
        if ch.isAlphanum ∨ ch = '_' ∨ ch = '-' then ch else '_'))).isEmpty
    · rw [if_pos hemp] at hc
      have hall : ∀ d ∈ "table".toList, d.isAlphanum = true ∨ d = '_' ∨ d = '-' := by decide
      exact hall c hc
    · rw [if_neg hemp] at hc
      have hc' : c ∈ s.toList.map (fun ch =>
          if ch.isAlphanum ∨ ch = '_' ∨ ch = '-' then ch else '_') := hc
      obtain ⟨ch, _, hch⟩ := List.mem_map.mp hc'
      by_cases hk : ch.isAlphanum ∨ ch = '_' ∨ ch = '-'
      · rw [if_pos hk] at hch
        subst hch
        rcases hk with hk | hk | hk
        · left; exact hk
        · right; left; exact hk
        · right; right; exact hk
      · rw [if_neg hk] at hch
        subst hch
        right; left; rfl

theorem claim_C8_witness :
    export_tables_to_parquet exportEnvId [("t", [("a", [1])])] [⟨"t", []⟩] "out" "Q" [] =
      ([("out/Q/t.parquet", ParquetFile.written [("a", [1])]),
        ("out/Q/t.parquet", ParquetFile.stub)], .ok ["out/Q/t.parquet"]) ∧
    export_tables_to_parquet exportEnvId [("t", [("a", [1])])] [⟨"t", []⟩] "out" "Q"
        [("out/Q/t.parquet", ParquetFile.written [("a", [1])]),
         ("out/Q/t.parquet", ParquetFile.stub)] =
      ([("out/Q/t.parquet", ParquetFile.written [("a", [1])]),
        ("out/Q/t.parquet", ParquetFile.stub)], .ok ["out/Q/t.parquet"]) :=
  ⟨rfl,
    (claim_C8_idempotent_export exportEnvId [("t", [("a", [1])])] [⟨"t", []⟩] "out" "Q" [] _ _
      rfl).1⟩

/-- C9: evaluation of the failing input.  The export writes directly at
the final output path: File::create makes the file visible before the
arrow writer runs, so when the writer fails the incompletely written
file remains at the deterministic path, and a second export finds it
with its existence check and reuses it instead of rewriting - the claim
that no partially written file is ever visible or reused is violated by
the code. -/
theorem claim_C9_truncated_file_reused :
    export_tables_to_parquet exportEnvFailWrite [("t", [("a", [1])])] [⟨"t", []⟩] "out" "Q" [] =
      ([("out/Q/t.parquet", ParquetFile.stub)], .error (.WriteFail "io")) ∧
    export_tables_to_parquet exportEnvFailWrite [("t", [("a", [1])])] [⟨"t", []⟩] "out" "Q"
        [("out/Q/t.parquet", ParquetFile.stub)] =
      ([("out/Q/t.parquet", ParquetFile.stub)], .ok ["out/Q/t.parquet"]) :=
  ⟨rfl, rfl⟩

/-! ## C10: what every result record reports -/

/-- The record invariant: a result reports the requested table size and
the HyperKZG scheme name. -/
def resultInv (opts : BenchOptions) (r : BenchResult) : Prop :=
  r.table_size = opts.table_size ∧ r.commitment_scheme = "HyperKZG"

theorem runIters_results_inv (env : RunEnv) (clock : Nat → Nat) (opts : BenchOptions)
    (qn : String) (params : Nat) (prover : List Bn254G1Affine)
    (vk : List (Option (Nat × Nat))) (pl : Nat) :
    ∀ (fuel i : Nat) (st st' : RunState),
      runIters env clock opts qn params prover vk pl i fuel st = .ok st' →
      (∀ r ∈ st.results, resultInv opts r) → ∀ r ∈ st'.results, resultInv opts r := by
  intro fuel
  induction fuel with
  | zero =>
    intro i st st' h hin
    simp only [runIters] at h
    injection h with h'
    subst h'
    exact hin
  | succ fuel ih =>
    intro i st st' h hin
    cases hp : env.prove pl st.acc prover params with
    | error m => simp only [runIters, hp] at h; exact Except.noConfusion h
    | ok numRows =>
      cases hv : env.verify numRows pl st.acc vk params with
      | error m => simp only [runIters, hp, hv] at h; exact Except.noConfusion h
      | ok u =>
        simp only [runIters, hp, hv] at h
        refine ih (i + 1) _ st' h ?_
        intro r hr
        rw [List.mem_append] at hr
        rcases hr with hr | hr
        · exact hin r hr
        · rcases List.mem_singleton.mp hr with rfl
          exact ⟨rfl, rfl⟩

theorem runPlans_results_inv (env : RunEnv) (clock : Nat → Nat) (opts : BenchOptions)
    (qn : String) (params : Nat) (prover : List Bn254G1Affine)
    (vk : List (Option (Nat × Nat))) :
    ∀ (pls : List Nat) (st st' : RunState),
      runPlans env clock opts qn params prover vk pls st = .ok st' →
      (∀ r ∈ st.results, resultInv opts r) → ∀ r ∈ st'.results, resultInv opts r := by
  intro pls
  induction pls with
  | nil =>
    intro st st' h hin
    simp only [runPlans] at h
    injection h with h'
    subst h'
    exact hin
  | cons pl pls ih =>
    intro st st' h hin
    cases hi : runIters env clock opts qn params prover vk pl 0 opts.iterations st with
    | error e => simp only [runPlans, hi] at h; exact Except.noConfusion h
    | ok stm =>
      simp only [runPlans, hi] at h
      exact ih stm st' h
        (runIters_results_inv env clock opts qn params prover vk pl opts.iterations 0 st stm
          hi hin)

theorem runExportPhase_ok_shape (env : RunEnv) (opts : BenchOptions) (q : QueryEntry)
    (st1 st2 : RunState) (h : runExportPhase env opts q st1 = .ok st2) :
    st2.results = st1.results ∧ st2.acc = st1.acc ∧ st2.rngSt = st1.rngSt ∧
      st2.clockIdx = st1.clockIdx := by
  cases hpd : opts.parquet_dir with
  | none =>
    simp only [runExportPhase, hpd] at h
    injection h with h'
    subst h'
    exact ⟨rfl, rfl, rfl, rfl⟩
  | some dir =>
    simp only [runExportPhase, hpd] at h
    cases hde : export_tables_to_parquet env.toExportEnv st1.acc q.tables dir q.name st1.fs with
    | mk fs2 res =>
      rw [hde] at h
      cases res with
      | error e => simp at h
      | ok outs =>
        simp only at h
        injection h with h'
        subst h'
        exact ⟨rfl, rfl, rfl, rfl⟩

theorem runQuery_results_inv (env : RunEnv) (clock : Nat → Nat) (opts : BenchOptions)
    (prover : List Bn254G1Affine) (vk : List (Option (Nat × Nat))) (q : QueryEntry)
    (st st' : RunState) (h : runQuery env clock opts prover vk q st = .ok st')
    (hin : ∀ r ∈ st.results, resultInv opts r) : ∀ r ∈ st'.results, resultInv opts r := by
  unfold runQuery at h
  cases he : runExportPhase env opts q (stAfterBuild env opts q st) with
  | error e => rw [he] at h; exact Except.noConfusion h
  | ok st2 =>
    rw [he] at h
    have hsh := runExportPhase_ok_shape env opts q _ st2 he
    have hin2 : ∀ r ∈ st2.results, resultInv opts r := by
      rw [hsh.1]
      exact hin
    cases hps : env.parse q.sql with
    | error m => simp only [hps] at h; exact Except.noConfusion h
    | ok statements =>
      simp only [hps] at h
      cases hpl : env.plan statements st2.acc with
      | error m => simp only [hpl] at h; exact Except.noConfusion h
      | ok plans =>
        simp only [hpl] at h
        exact runPlans_results_inv env clock opts q.name q.params prover vk plans st2 st' h hin2

theorem runQueries_results_inv (env : RunEnv) (clock : Nat → Nat) (opts : BenchOptions)
    (prover : List Bn254G1Affine) (vk : List (Option (Nat × Nat))) :
    ∀ (qs : List QueryEntry) (st st' : RunState),
      runQueries env clock opts prover vk qs st = .ok st' →
      (∀ r ∈ st.results, resultInv opts r) → ∀ r ∈ st'.results, resultInv opts r := by
  intro qs
  induction qs with
  | nil =>
    intro st st' h hin
    simp only [runQueries] at h
    injection h with h'
    subst h'
    exact hin
  | cons q qs ih =>
    intro st st' h hin
    cases hq : runQuery env clock opts prover vk q st with
    | error e => simp only [runQueries, hq] at h; exact Except.noConfusion h
    | ok stm =>
      simp only [runQueries, hq] at h
      exact ih stm st' h (runQuery_results_inv env clock opts prover vk q st stm hq hin)

/-- C10: every BenchResult produced by a successful run reports
table_size equal to the requested options.table_size and
commitment_scheme HyperKZG - for every query entry, including those
named Join or Union All whose tables were generated with the halved row
count; the adjusted count is never reported. -/
theorem claim_C10_reported_table_size (env : RunEnv) (clock : Nat → Nat) (entropy : Nat)
    (queries : List QueryEntry) (opts : BenchOptions) (ppotFs : List (String × List Nat))
    (ppot : Option String) (st : RunState)
    (h : run_hyperkzg_bench env clock entropy queries opts ppotFs ppot = .ok st) :
    ∀ r ∈ st.results, r.table_size = opts.table_size ∧ r.commitment_scheme = "HyperKZG" := by
  unfold run_hyperkzg_bench at h
  cases hl : load_hyperkzg_setup env.toSetupEnv ppotFs opts.table_size ppot with
  | error e => rw [hl] at h; exact Except.noConfusion h
  | ok setup =>
    rw [hl] at h
    exact runQueries_results_inv env clock opts setup.1 setup.2 queries (initState opts entropy)
      st h (by intro r hr; exact absurd hr (List.not_mem_nil r))

theorem claim_C10_witness :
    (BenchResult.mk "HyperKZG" "Join" 7 0 0 1 2).table_size = 7 ∧
    (BenchResult.mk "HyperKZG" "Join" 7 0 0 1 2).commitment_scheme = "HyperKZG" :=
  claim_C10_reported_table_size runEnvOk clockId 0 [qTriv] optsTriv [] none _ rfl
    (BenchResult.mk "HyperKZG" "Join" 7 0 0 1 2) (by decide)

/-! ## C6: fail-fast, all-or-nothing runs -/

/-- C6: the run is all-or-nothing.  First conjunct: when processing a
prefix of the query list fails with a tagged error, the whole run over
any extension of that prefix returns exactly that error - results
already accumulated for earlier entries (inside the state threaded by
runQueries) are discarded because the error constructor carries no
result records, and later entries are never processed.  Second
conjunct: a failing phase produces the tag of that phase, shown here
for the SQL parsing phase at the head entry.  Third conjunct: a setup
loading failure aborts the run with that same tagged error. -/
theorem claim_C6_fail_fast (env : RunEnv) (clock : Nat → Nat) (opts : BenchOptions)
    (prover : List Bn254G1Affine) (vk : List (Option (Nat × Nat))) :
    (∀ (qs₁ qs₂ : List QueryEntry) (st : RunState) (e : BenchRunError),
      runQueries env clock opts prover vk qs₁ st = .error e →
      runQueries env clock opts prover vk (qs₁ ++ qs₂) st = .error e) ∧
    (∀ (q : QueryEntry) (qs : List QueryEntry) (st : RunState) (m : String),
      opts.parquet_dir = none → env.parse q.sql = .error m →
      runQueries env clock opts prover vk (q :: qs) st = .error (.SqlParse m)) ∧
    (∀ (entropy : Nat) (qs : List QueryEntry) (ppotFs : List (String × List Nat))
        (ppot : Option String) (e : BenchRunError),
      load_hyperkzg_setup env.toSetupEnv ppotFs opts.table_size ppot = .error e →
      run_hyperkzg_bench env clock entropy qs opts ppotFs ppot = .error e) := by
  refine ⟨?_, ?_, ?_⟩
  · intro qs₁
    induction qs₁ with
    | nil =>
      intro qs₂ st e h
      simp only [runQueries] at h
      exact Except.noConfusion h
    | cons q qs ih =>
      intro qs₂ st e h
      cases hq : runQuery env clock opts prover vk q st with
      | error e₀ =>
        simp only [runQueries, hq] at h
        injection h with h'
        subst h'
        simp only [List.cons_append, runQueries, hq]
      | ok stm =>
        simp only [runQueries, hq] at h
        simp only [List.cons_append, runQueries, hq]
        exact ih qs₂ stm e h
  · intro q qs st m hpd hps
    have hexp : runExportPhase env opts q (stAfterBuild env opts q st) =
        .ok (stAfterBuild env opts q st) := by
      simp only [runExportPhase, hpd]
    simp only [runQueries, runQuery, hexp, hps]
  · intro entropy qs ppotFs ppot e hl
    simp only [run_hyperkzg_bench, hl]

theorem claim_C6_witness :
    runQueries runEnvParseFail clockId optsTriv [] [] [qTriv, qTriv] (initState optsTriv 0) =
      .error (.SqlParse "bad sql") :=
  (claim_C6_fail_fast runEnvParseFail clockId optsTriv [] []).2.1 qTriv [qTriv]
    (initState optsTriv 0) "bad sql" rfl rfl

/-! ## C7: determinism for a fixed seed -/

theorem stripState_eq_iff (st₁ st₂ : RunState) :
    stripState st₁ = stripState st₂ ↔
      st₁.acc = st₂.acc ∧ st₁.fs = st₂.fs ∧ st₁.rngSt = st₂.rngSt ∧
      st₁.clockIdx = st₂.clockIdx ∧
      st₁.results.map stripResult = st₂.results.map stripResult ∧
      st₁.parquet_paths = st₂.parquet_paths := by
  cases st₁; cases st₂
  simp [stripState]

theorem stripOut_error_inv (x : Except BenchRunError RunState) (e : BenchRunError)
    (h : stripOut x = .error e) : x = .error e := by
  cases x with
  | error f => simp only [stripOut] at h; injection h with h'; rw [h']
  | ok s => simp only [stripOut] at h; exact Except.noConfusion h

theorem stripOut_ok_inv (x : Except BenchRunError RunState) (s : RunState)
    (h : stripOut x = .ok s) : ∃ t, x = .ok t ∧ stripState t = s := by
  cases x with
  | error f => simp only [stripOut] at h; exact Except.noConfusion h
  | ok t => simp only [stripOut] at h; injection h with h'; exact ⟨t, rfl, h'⟩

theorem runIters_strip (env : RunEnv) (opts : BenchOptions) (qn : String) (params : Nat)
    (prover : List Bn254G1Affine) (vk : List (Option (Nat × Nat))) (pl : Nat)
    (c₁ c₂ : Nat → Nat) :
    ∀ (fuel i : Nat) (st₁ st₂ : RunState), stripState st₁ = stripState st₂ →
      stripOut (runIters env c₁ opts qn params prover vk pl i fuel st₁) =
        stripOut (runIters env c₂ opts qn params prover vk pl i fuel st₂) := by
  intro fuel
  induction fuel with
  | zero =>
    intro i st₁ st₂ hst
    simp only [runIters, stripOut]
    rw [hst]
  | succ fuel ih =>
    intro i st₁ st₂ hst
    obtain ⟨hacc, hfs, hrng, hclk, hres, hpth⟩ := (stripState_eq_iff st₁ st₂).mp hst
    simp only [runIters]
    rw [hacc, hclk]
    cases hp : env.prove pl st₂.acc prover params with
    | error m => simp only [hp, stripOut]
    | ok numRows =>
      simp only [hp]
      cases hv : env.verify numRows pl st₂.acc vk params with
      | error m => simp only [hv, stripOut]
      | ok u =>
        simp only [hv]
        refine ih (i + 1) _ _ ?_
        rw [stripState_eq_iff]
        refine ⟨rfl, hfs, hrng, rfl, ?_, hpth⟩
        simp only [List.map_append, List.map_cons, List.map_nil, hres]
        have hstrip : stripResult
            { commitment_scheme := "HyperKZG", query := qn, table_size := opts.table_size
              iteration := i, generate_proof_ms := c₁ st₂.clockIdx
              verify_proof_ms := c₁ (st₂.clockIdx + 1), num_query_results := numRows } =
            stripResult
            { commitment_scheme := "HyperKZG", query := qn, table_size := opts.table_size
              iteration := i, generate_proof_ms := c₂ st₂.clockIdx
              verify_proof_ms := c₂ (st₂.clockIdx + 1), num_query_results := numRows } := by
          simp [stripResult]
        rw [hstrip]

theorem runPlans_strip (env : RunEnv) (opts : BenchOptions) (qn : String) (params : Nat)
    (prover : List Bn254G1Affine) (vk : List (Option (Nat × Nat))) (c₁ c₂ : Nat → Nat) :
    ∀ (pls : List Nat) (st₁ st₂ : RunState), stripState st₁ = stripState st₂ →
      stripOut (runPlans env c₁ opts qn params prover vk pls st₁) =
        stripOut (runPlans env c₂ opts qn params prover vk pls st₂) := by
  intro pls
  induction pls with
  | nil =>
    intro st₁ st₂ hst
    simp only [runPlans, stripOut]
    rw [hst]
  | cons pl pls ih =>
    intro st₁ st₂ hst
    have h1 := runIters_strip env opts qn params prover vk pl c₁ c₂ opts.iterations 0 st₁ st₂ hst
    cases hr₁ : runIters env c₁ opts qn params prover vk pl 0 opts.iterations st₁ with
    | error e =>
      rw [hr₁] at h1
      have hr₂ := stripOut_error_inv _ e h1.symm
      simp only [runPlans, hr₁, hr₂, stripOut]
    | ok s₁ =>
      rw [hr₁] at h1
      obtain ⟨s₂, hr₂, hstrip⟩ := stripOut_ok_inv _ _ h1.symm
      simp only [runPlans, hr₁, hr₂]
      exact ih s₁ s₂ hstrip.symm

theorem stAfterBuild_strip (env : RunEnv) (opts : BenchOptions) (q : QueryEntry)
    (st₁ st₂ : RunState) (hst : stripState st₁ = stripState st₂) :
    stripState (stAfterBuild env opts q st₁) = stripState (stAfterBuild env opts q st₂) := by
  obtain ⟨hacc, hfs, hrng, hclk, hres, hpth⟩ := (stripState_eq_iff st₁ st₂).mp hst
  rw [stripState_eq_iff]
  unfold stAfterBuild
  rw [hacc, hrng]
  exact ⟨rfl, hfs, rfl, hclk, hres, hpth⟩

theorem runExportPhase_strip (env : RunEnv) (opts : BenchOptions) (q : QueryEntry)
    (st₁ st₂ : RunState) (hst : stripState st₁ = stripState st₂) :
    stripOut (runExportPhase env opts q st₁) = stripOut (runExportPhase env opts q st₂) := by
  obtain ⟨hacc, hfs, hrng, hclk, hres, hpth⟩ := (stripState_eq_iff st₁ st₂).mp hst
  cases hpd : opts.parquet_dir with
  | none =>
    simp only [runExportPhase, hpd, stripOut]
    rw [hst]
  | some dir =>
    simp only [runExportPhase, hpd]
    rw [hacc, hfs]
    cases he : export_tables_to_parquet env.toExportEnv st₂.acc q.tables dir q.name st₂.fs with
    | mk fs' r =>
      cases r with
      | error e => simp only [stripOut]
      | ok outs =>
        simp only [stripOut, Except.ok.injEq]
        rw [stripState_eq_iff]
        refine ⟨rfl, rfl, hrng, hclk, hres, ?_⟩
        rw [hpth]

theorem runQuery_strip (env : RunEnv) (opts : BenchOptions)
    (prover : List Bn254G1Affine) (vk : List (Option (Nat × Nat))) (q : QueryEntry)
    (c₁ c₂ : Nat → Nat) (st₁ st₂ : RunState) (hst : stripState st₁ = stripState st₂) :
    stripOut (runQuery env c₁ opts prover vk q st₁) =
      stripOut (runQuery env c₂ opts prover vk q st₂) := by
  have hb := stAfterBuild_strip env opts q st₁ st₂ hst
  have he := runExportPhase_strip env opts q _ _ hb
  cases he₁ : runExportPhase env opts q (stAfterBuild env opts q st₁) with
  | error e =>
    rw [he₁] at he
    have he₂ := stripOut_error_inv _ e he.symm
    simp only [runQuery, he₁, he₂, stripOut]
  | ok s₁ =>
    rw [he₁] at he
    obtain ⟨s₂, he₂, hstrip⟩ := stripOut_ok_inv _ _ he.symm
    have hs : stripState s₁ = stripState s₂ := hstrip.symm
    obtain ⟨hacc, hfs, hrng, hclk, hres, hpth⟩ := (stripState_eq_iff s₁ s₂).mp hs
    simp only [runQuery, he₁, he₂]
    cases hps : env.parse q.sql with
    | error m => simp only [stripOut]
    | ok statements =>
      simp only []
      rw [hacc]
      cases hpl : env.plan statements s₂.acc with
      | error m => simp only [stripOut]
      | ok plans =>
        simp only []
        exact runPlans_strip env opts q.name q.params prover vk c₁ c₂ plans s₁ s₂ hs

theorem runQueries_strip (env : RunEnv) (opts : BenchOptions)
    (prover : List Bn254G1Affine) (vk : List (Option (Nat × Nat))) (c₁ c₂ : Nat → Nat) :
    ∀ (qs : List QueryEntry) (st₁ st₂ : RunState), stripState st₁ = stripState st₂ →
      stripOut (runQueries env c₁ opts prover vk qs st₁) =
        stripOut (runQueries env c₂ opts prover vk qs st₂) := by
  intro qs
  induction qs with
  | nil =>
    intro st₁ st₂ hst
    simp only [runQueries, stripOut]
    rw [hst]
  | cons q qs ih =>
    intro st₁ st₂ hst
    have h1 := runQuery_strip env opts prover vk q c₁ c₂ st₁ st₂ hst
    cases hq₁ : runQuery env c₁ opts prover vk q st₁ with
    | error e =>
      rw [hq₁] at h1
      have hq₂ := stripOut_error_inv _ e h1.symm
      simp only [runQueries, hq₁, hq₂, stripOut]
    | ok s₁ =>
      rw [hq₁] at h1
      obtain ⟨s₂, hq₂, hstrip⟩ := stripOut_ok_inv _ _ h1.symm
      simp only [runQueries, hq₁, hq₂]
      exact ih s₁ s₂ hstrip.symm

/-- C7: for a fixed seed, two runs with identical query entries and
options - but arbitrary, possibly different clock readings and entropy
sources - agree on everything except the timing fields of the results:
the final accessor content (the generated table data), the parquet file
system and paths, the random-source state, and every result record with
its timing fields erased (in particular all num_query_results values)
are identical. -/
theorem claim_C7_seed_determinism (env : RunEnv) (queries : List QueryEntry)
    (opts : BenchOptions) (ppotFs : List (String × List Nat)) (ppot : Option String)
    (s : Nat) (c₁ c₂ : Nat → Nat) (e₁ e₂ : Nat)
    (hseed : opts.rand_seed = some s) :
    stripOut (run_hyperkzg_bench env c₁ e₁ queries opts ppotFs ppot) =
      stripOut (run_hyperkzg_bench env c₂ e₂ queries opts ppotFs ppot) := by
  unfold run_hyperkzg_bench
  cases hl : load_hyperkzg_setup env.toSetupEnv ppotFs opts.table_size ppot with
  | error e => simp only [stripOut]
  | ok setup =>
    simp only []
    apply runQueries_strip
    rw [stripState_eq_iff]
    refine ⟨rfl, rfl, ?_, rfl, rfl, rfl⟩
    simp [initState, rngInit, hseed]

theorem claim_C7_witness :
    stripOut (run_hyperkzg_bench runEnvOk clockId 7 [qTriv] optsTriv [] none) =
      stripOut (run_hyperkzg_bench runEnvOk (fun _ => 99) 3 [qTriv] optsTriv [] none) :=
  claim_C7_seed_determinism runEnvOk [qTriv] optsTriv [] none 5 clockId (fun _ => 99) 7 3 rfl

end Benchlib
